import Mathlib

/-!
Verification of the fct-miner repository's core decision logic.

The development shallowly embeds the two algorithmic subsystems:

* the adaptive mining controller of `src/config.ts`
  (`getEstimatesForSizeKb`, `pickBestSizeAndEstimates`, `miningLoop`,
  and the spend-cap resolution inside `main`), and
* the stuck-transaction canceller of `src/cancel-range.ts`
  (`cancelNonce` and the nonce sweep in `main`).

Chain-state reads (base fee, gas price, balance) and transaction outcomes
are nondeterministic inputs; they are modelled as explicit oracle
parameters (one value per iteration / attempt).  JavaScript `Number`
arithmetic on fees is modelled over `ℚ`; `bigint` arithmetic over `ℕ`.
The vendor SDK's `calculateInputGasCost` is an external oracle (spec S6);
it enters only as a function parameter `g : ℕ → ℕ`.
-/

namespace FctMiner

/-! ### Cost estimator (`src/config.ts`, `getEstimatesForSizeKb`) -/

/-- Total estimated gas for a payload of `sizeBytes` bytes:
the SDK input-gas cost `g` of the `sizeBytes - 160` mine-boost bytes
plus the fixed `baseExecutionGas = 21000`
(`estimatedInputCostGas` in `getEstimatesForSizeKb`). -/
def estimatedInputCostGas (g : ℕ → ℕ) (sizeBytes : ℕ) : ℕ :=
  g (sizeBytes - 160) + 21000

/-- Mining efficiency as computed by `getEstimatesForSizeKb`:
`(estimatedInputCostGas - baseExecutionGas) / estimatedInputCostGas * 100`. -/
def efficiencyPercentOf (g : ℕ → ℕ) (sizeBytes : ℕ) : ℚ :=
  ((estimatedInputCostGas g sizeBytes - 21000 : ℕ) : ℚ)
    / (estimatedInputCostGas g sizeBytes : ℚ) * 100

/-- Data-gas formula of `calculateDataGas` in `src/config.ts`:
10 gas per zero byte and 40 gas per non-zero byte. -/
def calculateDataGas (data : List ℕ) : ℕ :=
  data.foldl (fun acc byte => if byte = 0 then acc + 10 else acc + 40) 0

/-! ### Size candidate ranker (`src/config.ts`, `pickBestSizeAndEstimates`) -/

/-- Fields of one size estimate that the ranker inspects
(`costPerFctUsd` and `efficiencyPercent` of `getEstimatesForSizeKb`). -/
structure SizeEst where
  costPerFctUsd : ℚ
  efficiencyPercent : ℚ
deriving DecidableEq

/-- Cost-ceiling check of the ranker:
`opts.maxCostPerFctUsd == null || est.costPerFctUsd <= opts.maxCostPerFctUsd`. -/
def meetsCost (maxCost : Option ℚ) (est : SizeEst) : Bool :=
  match maxCost with
  | none => true
  | some c => est.costPerFctUsd ≤ c

/-- Efficiency-floor check of the ranker:
`opts.minEfficiencyPercent == null || est.efficiencyPercent >= opts.minEfficiencyPercent`. -/
def meetsEff (minEff : Option ℚ) (est : SizeEst) : Bool :=
  match minEff with
  | none => true
  | some e => est.efficiencyPercent ≥ e

/-- Candidate loop body of `pickBestSizeAndEstimates`.  `estOf kb` is the
estimate returned by `getEstimatesForSizeKb` for that candidate (each
candidate re-reads chain state, so the values are independent inputs).
The accumulator `best` mirrors the mutable `best` variable. -/
def pickBestGo (maxCost minEff : Option ℚ) (estOf : ℕ → SizeEst) :
    List ℕ → Option (ℕ × SizeEst) → Option (ℕ × SizeEst)
  | [], best => best
  | kb :: rest, best =>
    let est := estOf kb
    let best2 :=
      if meetsCost maxCost est && meetsEff minEff est then
        match best with
        | none => some (kb, est)
        | some b =>
          if est.costPerFctUsd < b.2.costPerFctUsd then some (kb, est) else some b
      else
        match best with
        | none => some (kb, est)
        | some b =>
          if est.costPerFctUsd < b.2.costPerFctUsd then some (kb, est) else some b
    pickBestGo maxCost minEff estOf rest best2

/-- Candidate sizes `minKb, minKb+25, …` up to `maxKb`
(the `for (let kb = minKb; kb <= maxKb; kb += AUTO_SIZE_STEP_KB)` loop,
with `AUTO_SIZE_STEP_KB = 25`). -/
def candidateKbs (minKb maxKb : ℕ) : List ℕ :=
  if minKb ≤ maxKb then List.range' minKb ((maxKb - minKb) / 25 + 1) 25 else []

/-- The ranker `pickBestSizeAndEstimates`: fold the candidate loop over the
candidate sizes starting from `best = null`. -/
def pickBestSizeAndEstimates (maxCost minEff : Option ℚ) (estOf : ℕ → SizeEst)
    (minKb maxKb : ℕ) : Option (ℕ × SizeEst) :=
  pickBestGo maxCost minEff estOf (candidateKbs minKb maxKb) none

/-! ### Mining session loop (`src/config.ts`, `miningLoop`) -/

/-- Outcome of one call of `mineFacetTransactionWithDashboard`:
a result object with actual spend and mint, a `null` return
(the function caught the error itself), or a thrown exception. -/
inductive TxOutcome
  | ok (ethSpent fctMinted : ℕ)
  | nullResult
  | exn
deriving DecidableEq

/-- Body of the `while (totalSpent < spendCap)` loop of `miningLoop`.
Each iteration consumes one oracle entry `(est, out)`: `est` is the fresh
`estimateTransactionCost` value of that iteration (it re-reads the current
block), `out` the transaction outcome.  `i` is the iteration index and
`totalSpent` the running total.  The returned list records every
submission as `(iteration index, totalSpent before, estimate used)`;
a transaction is submitted exactly when the budget check passes. -/
def miningLoopGo (spendCap : ℕ) (stopOnFail : Bool) :
    List (ℕ × TxOutcome) → ℕ → ℕ → List (ℕ × ℕ × ℕ)
  | [], _, _ => []
  | (est, out) :: rest, i, totalSpent =>
    if totalSpent < spendCap then
      if totalSpent + est > spendCap then []
      else
        (i, totalSpent, est) ::
        (match out with
         | .ok ethSpent _ =>
           if totalSpent + ethSpent + est > spendCap then []
           else miningLoopGo spendCap stopOnFail rest (i + 1) (totalSpent + ethSpent)
         | .nullResult => []
         | .exn =>
           if stopOnFail then []
           else miningLoopGo spendCap stopOnFail rest (i + 1) totalSpent)
    else []

/-- One mining session: run the loop from `totalSpent = 0`,
returning the list of submissions. -/
def miningLoop (spendCap : ℕ) (stopOnFail : Bool)
    (steps : List (ℕ × TxOutcome)) : List (ℕ × ℕ × ℕ) :=
  miningLoopGo spendCap stopOnFail steps 0 0

/-! ### Spend-cap resolution (`src/config.ts`, `main`, auto mode) -/

/-- Spend mode selected by `SPEND_MODE` (`'all' | 'cap'`). -/
inductive SpendMode
  | all
  | cap
deriving DecidableEq

/-- Result of resolving the spend cap: either a fatal configuration error
(the code prints an error and returns) or a resolved cap in wei. -/
inductive CapResult
  | fatal
  | ok (cap : ℕ)
deriving DecidableEq

/-- Spend-cap resolution block of `main` in `src/config.ts` (auto mode).
`balance` and `estimatedEthBurn` are in wei; `capWei` is the explicit
`SPEND_CAP_ETH` budget already converted to wei (`none` or `some 0` both
model an unset/non-positive value, matching `!capEth || capEth <= 0`);
`targetTxs` is `AUTO_TARGET_TXS`. -/
def resolveSpendCap (mode : SpendMode) (balance estimatedEthBurn : ℕ)
    (capWei : Option ℕ) (targetTxs : Option ℕ) : CapResult :=
  match mode with
  | .all =>
    let buffer := balance / 100
    .ok (if balance > buffer then balance - buffer else balance)
  | .cap =>
    let capEth := capWei.getD 0
    let step1 : Option ℕ :=
      if capEth = 0 then
        match targetTxs with
        | some t => if 0 < t then some (estimatedEthBurn * 11 / 10 * t) else none
        | none => none
      else some capEth
    match step1 with
    | none => .fatal
    | some spendCap0 =>
      if spendCap0 > balance then .fatal
      else
        let minCap := estimatedEthBurn * 11 / 10
        if spendCap0 < minCap then
          if minCap > balance then
            let buffer := balance / 100
            .ok (if balance > buffer then balance - buffer else balance)
          else .ok minCap
        else .ok spendCap0

/-! ### Stuck-transaction canceller (`src/cancel-range.ts`) -/

/-- Boolean test that `pat` occurs at the start of `s` (over character lists). -/
def startsWithChars : List Char → List Char → Bool
  | [], _ => true
  | _ :: _, [] => false
  | p :: ps, c :: cs => p == c && startsWithChars ps cs

/-- Boolean test that `pat` occurs somewhere inside `s` (over character lists). -/
def occursInChars (pat : List Char) : List Char → Bool
  | [] => startsWithChars pat []
  | c :: cs => startsWithChars pat (c :: cs) || occursInChars pat cs

/-- JavaScript `msg.includes(pat)` on strings. -/
def containsSub (msg pat : String) : Bool :=
  occursInChars pat.toList msg.toList

/-- ASCII lower-casing of one character (the only characters relevant to
the matched error messages are ASCII). -/
def lowerChar (c : Char) : Char :=
  if 'A' ≤ c ∧ c ≤ 'Z' then Char.ofNat (c.toNat + 32) else c

/-- JavaScript `msg.toLowerCase()` for ASCII strings. -/
def lowerStr (s : String) : String :=
  ⟨s.toList.map lowerChar⟩

/-- The three behaviours the canceller's catch block selects between. -/
inductive Bucket
  | resolved
  | bumpRetry
  | failedOther
deriving DecidableEq

/-- Matched substring of the first catch bucket. -/
def patNonceTooLow : String :=
  "nonce too low"

/-- Matched substring of the first catch bucket. -/
def patAlreadyKnown : String :=
  "already known"

/-- Matched substring of the second catch bucket. -/
def patUnderpriced : String :=
  "underpriced"

/-- Matched substring of the second catch bucket. -/
def patTipTooLow : String :=
  "tip too low"

/-- Matched substring of the second catch bucket. -/
def patBaseFee : String :=
  "base fee"

/-- Concrete error message used in witnesses below. -/
def msgReplacementUnderpriced : String :=
  "replacement transaction underpriced"

/-- Error classification of `cancelNonce`'s catch block: the message is
lower-cased, then matched against the three substring groups in order. -/
def classify (msg : String) : Bucket :=
  let m := lowerStr msg
  if containsSub m patNonceTooLow || containsSub m patAlreadyKnown then .resolved
  else if containsSub m patUnderpriced || containsSub m patTipTooLow
      || containsSub m patBaseFee then .bumpRetry
  else .failedOther

/-- The process-wide mutable fee variables `TIP` and `MAX`
of `src/cancel-range.ts`, in gwei. -/
structure FeeState where
  tip : ℚ
  maxFee : ℚ
deriving DecidableEq

/-- JavaScript `Number(x.toFixed(6))`: round to six decimal places.
`toFixed` rounds half away from zero; the fee values here are
non-negative, so rounding half up is the faithful model. -/
def round6 (x : ℚ) : ℚ :=
  (⌊x * 1000000 + 1 / 2⌋ : ℚ) / 1000000

/-- Fee escalation of the `underpriced` branch:
`TIP = Number((TIP * BUMP).toFixed(6)); MAX = Number((Math.max(MAX, TIP) * BUMP).toFixed(6))`
(the second line reads the already-bumped `TIP`). -/
def bumpFees (bump : ℚ) (s : FeeState) : FeeState :=
  let tip2 := round6 (s.tip * bump)
  { tip := tip2, maxFee := round6 (max s.maxFee tip2 * bump) }

/-- Fee pair actually passed to `sendTransaction` on an attempt:
`maxPriorityFeePerGas = TIP`, `maxFeePerGas = Math.max(MAX, TIP)`. -/
def feesUsed (s : FeeState) : ℚ × ℚ :=
  (s.tip, max s.maxFee s.tip)

/-- Outcome of one send attempt of `cancelNonce`: either the send and the
receipt wait succeed, or some step throws an error with message `msg`
(the catch block classifies any error thrown inside the try). -/
inductive AttemptOutcome
  | ok
  | err (msg : String)
deriving DecidableEq

/-- Terminal status of processing one nonce. -/
inductive NonceResult
  | confirmed
  | alreadyResolved
  | failedOther
  | exhausted
deriving DecidableEq

/-- The `for (let i = 1; i <= 8; i++)` retry loop of `cancelNonce`.
`oracle n` is the outcome of attempt number `n`; `fuel` counts the
remaining attempts (8 at entry), `i` the attempt number, `s` the fee
state.  Returns the list of attempts made (attempt number and the fee
state in effect), the final fee state, and the terminal status. -/
def cancelNonceGo (bump : ℚ) (oracle : ℕ → AttemptOutcome) :
    ℕ → ℕ → FeeState → List (ℕ × FeeState) × FeeState × NonceResult
  | 0, _, s => ([], s, .exhausted)
  | fuel + 1, i, s =>
    match oracle i with
    | .ok => ([(i, s)], s, .confirmed)
    | .err msg =>
      match classify msg with
      | .resolved => ([(i, s)], s, .alreadyResolved)
      | .failedOther => ([(i, s)], s, .failedOther)
      | .bumpRetry =>
        let s2 := bumpFees bump s
        let r := cancelNonceGo bump oracle fuel (i + 1) s2
        ((i, s) :: r.1, r.2)

/-- The function `cancelNonce`: up to 8 attempts starting at attempt number 1. -/
def cancelNonce (bump : ℚ) (oracle : ℕ → AttemptOutcome) (s : FeeState) :
    List (ℕ × FeeState) × FeeState × NonceResult :=
  cancelNonceGo bump oracle 8 1 s

/-- The nonce sweep of `main` in `src/cancel-range.ts`: process each nonce
in order, threading the module-level `TIP`/`MAX` state from one
`cancelNonce` call to the next.  For each nonce it records the fee state
at entry and the fee state after the nonce is resolved or abandoned. -/
def runRange (bump : ℚ) (s : FeeState) :
    List (ℕ → AttemptOutcome) → List (FeeState × FeeState)
  | [] => []
  | oracle :: rest =>
    let r := cancelNonce bump oracle s
    (s, r.2.1) :: runRange bump r.2.1 rest

/-!
### Theorems
-/

/-- C1: the size candidate ranker is claimed to return, whenever some
candidate satisfies both the cost ceiling and the efficiency floor, a
candidate that satisfies both constraints (with minimal `costPerFctUsd`
among the satisfying ones).  The code violates this: all three update
branches of `pickBestSizeAndEstimates` replace `best` exactly when the
new candidate is strictly cheaper, so constraint satisfaction never
influences the result.  With an efficiency floor of 90, a 25KB candidate
(cost 5, efficiency 95) satisfying both constraints, and a 50KB candidate
(cost 3, efficiency 85) violating the floor, the ranker returns the 50KB
candidate. -/
theorem c1_pickBest_ignores_constraints :
    pickBestSizeAndEstimates none (some 90)
      (fun kb => if kb = 25 then (⟨5, 95⟩ : SizeEst) else ⟨3, 85⟩) 25 50 =
      some (50, ⟨3, 85⟩) ∧
    meetsCost none ⟨5, 95⟩ = true ∧ meetsEff (some 90) ⟨5, 95⟩ = true ∧
    meetsEff (some 90) ⟨3, 85⟩ = false := by
  decide

/-- C3 counterexample: in spend mode `all` with balance 110 wei and a
per-transaction estimate of 100 wei, the balance covers the 10%-buffered
cost `100 * 11 / 10 = 110`, yet the resolved cap is `110 - 110/100 = 109`,
below that buffered cost — the claimed lower bound fails for mode `all`. -/
theorem c3_counterexample :
    resolveSpendCap .all 110 100 none none = .ok 109 ∧
    100 * 11 / 10 ≤ 110 ∧ ¬ (100 * 11 / 10 ≤ (109 : ℕ)) := by
  decide

/-- C3 (amended): every successfully resolved cap satisfies
`0 ≤ cap ≤ balance`; the lower bound `cap ≥ ⌊perTxEstimate * 11 / 10⌋`
holds whenever the balance affords it **in spend mode `cap`** (both
sub-modes).  Mode `all` only guarantees `cap ≤ balance`. -/
theorem c3_spendCap_bounds (mode : SpendMode) (balance est : ℕ)
    (capWei targetTxs : Option ℕ) (c : ℕ)
    (h : resolveSpendCap mode balance est capWei targetTxs = .ok c) :
    0 ≤ c ∧ c ≤ balance ∧
      (mode = .cap → est * 11 / 10 ≤ balance → est * 11 / 10 ≤ c) := by
  refine ⟨Nat.zero_le _, ?_⟩
  cases mode with
  | all =>
    simp only [resolveSpendCap, CapResult.ok.injEq] at h
    subst h
    constructor
    · split <;> omega
    · intro hmode; cases hmode
  | cap =>
    simp only [resolveSpendCap] at h
    split at h
    · exact absurd h (by simp)
    · rename_i spendCap0 hstep
      split at h
      · exact absurd h (by simp)
      · rename_i hbal
        have hcap0 : spendCap0 ≤ balance := Nat.not_lt.mp hbal
        have hmin : est * 11 / 10 ≤ spendCap0 ∨ spendCap0 < est * 11 / 10 := by
          omega
        split at h
        · rename_i hlt
          split at h
          · rename_i hover
            simp only [CapResult.ok.injEq] at h
            subst h
            refine ⟨by split <;> omega, ?_⟩
            intro _ haff
            omega
          · simp only [CapResult.ok.injEq] at h
            subst h
            have := Nat.not_lt.mp (by assumption : ¬ est * 11 / 10 > balance)
            exact ⟨this, fun _ _ => le_refl _⟩
        · rename_i hge
          simp only [CapResult.ok.injEq] at h
          subst h
          exact ⟨hcap0, fun _ _ => Nat.not_lt.mp hge⟩

/-- C3 witness: mode `cap`, balance 1000 wei, estimate 100 wei, explicit
cap 50 wei.  The cap is raised to the buffered minimum 110, which is
within balance and at least the buffered per-transaction cost. -/
theorem c3_witness :
    resolveSpendCap .cap 1000 100 (some 50) none = .ok 110 ∧
    (0 ≤ 110 ∧ 110 ≤ 1000 ∧
      (SpendMode.cap = .cap → 100 * 11 / 10 ≤ 1000 → 100 * 11 / 10 ≤ 110)) :=
  ⟨by decide, c3_spendCap_bounds .cap 1000 100 (some 50) none 110 (by decide)⟩

/-- C4: in spend mode `all` the resolved cap is
`balance - balance / 100` (integer division), degenerating to `balance`
itself when `balance ≤ balance / 100`; concretely a balance of
`10^18` wei (1 ETH) yields a buffer of `10^16` wei (0.01 ETH) and a cap
of `99 * 10^16` wei (0.99 ETH). -/
theorem c4_all_mode_cap :
    (∀ balance est capWei targetTxs,
      resolveSpendCap .all balance est capWei targetTxs =
        .ok (if balance ≤ balance / 100 then balance
             else balance - balance / 100)) ∧
    resolveSpendCap .all (10 ^ 18) 0 none none = .ok (99 * 10 ^ 16) := by
  constructor
  · intro balance est capWei targetTxs
    simp only [resolveSpendCap, CapResult.ok.injEq]
    split <;> split <;> omega
  · decide

/-- C5 counterexample: the claim rounds the buffered per-transaction cost
**up**; the code computes `est * 11n / 10n`, which rounds **down**.  For
`perTxEstimate = 101` wei and `targetTxs = 1` the code resolves the cap to
`111` wei while `⌈101 * 1.1⌉ * 1 = 112`. -/
theorem c5_counterexample :
    resolveSpendCap .cap (10 ^ 18) 101 none (some 1) = .ok 111 ∧
    (101 * 11 + 9) / 10 * 1 = 112 ∧ (111 : ℕ) ≠ 112 := by
  decide

/-- C5 (amended): spend mode `cap` without an explicit amount resolves the
cap to `(perTxEstimate * 11 / 10) * targetCount` — the per-transaction
cost buffered by 10% and rounded **down**, times the target count —
whenever the count is positive and the result is within balance. -/
theorem c5_target_txs_cap (est t balance : ℕ) (ht : 0 < t)
    (hb : est * 11 / 10 * t ≤ balance) :
    resolveSpendCap .cap balance est none (some t) =
      .ok (est * 11 / 10 * t) := by
  have hmin : est * 11 / 10 ≤ est * 11 / 10 * t :=
    le_mul_of_one_le_right (Nat.zero_le _) ht
  simp only [resolveSpendCap, Option.getD, if_pos ht]
  simp [Nat.not_lt.mpr hb, Nat.not_lt.mpr hmin]

/-- C5 witness: the spec scenario — `perTxEstimate = 0.02` ETH
(`2 * 10^16` wei) and `targetTxs = 5` resolve to `0.11` ETH
(`11 * 10^16` wei), assuming a 1 ETH balance. -/
theorem c5_witness :
    0 < 5 ∧ 2 * 10 ^ 16 * 11 / 10 * 5 ≤ 10 ^ 18 ∧
    resolveSpendCap .cap (10 ^ 18) (2 * 10 ^ 16) none (some 5) =
      .ok (11 * 10 ^ 16) := by
  refine ⟨by decide, by decide, ?_⟩
  have h := c5_target_txs_cap (2 * 10 ^ 16) 5 (10 ^ 18) (by decide) (by decide)
  rwa [show 2 * 10 ^ 16 * 11 / 10 * 5 = 11 * 10 ^ 16 by decide] at h

/-- Helper for C2: every submission recorded by the loop body carries an
iteration index at least the starting index, respects the budget, and its
estimate is exactly the oracle estimate of its own iteration. -/
theorem miningLoopGo_spec (cap : ℕ) (stop : Bool) :
    ∀ (steps : List (ℕ × TxOutcome)) (i spent : ℕ) (sub : ℕ × ℕ × ℕ),
      sub ∈ miningLoopGo cap stop steps i spent →
      i ≤ sub.1 ∧ sub.2.1 + sub.2.2 ≤ cap ∧
        ∃ out, steps.get? (sub.1 - i) = some (sub.2.2, out) := by
  intro steps
  induction steps with
  | nil => intro i spent sub h; simp [miningLoopGo] at h
  | cons head rest ih =>
    intro i spent sub h
    obtain ⟨est, out⟩ := head
    simp only [miningLoopGo] at h
    split at h
    · rename_i hrun
      split at h
      · simp at h
      · rename_i hbudget
        have base : sub = (i, spent, est) →
            i ≤ sub.1 ∧ sub.2.1 + sub.2.2 ≤ cap ∧
              ∃ o, ((est, out) :: rest).get? (sub.1 - i) =
                some (sub.2.2, o) := by
          intro heq; subst heq
          exact ⟨le_refl _, Nat.not_lt.mp hbudget, out, by simp⟩
        have step : ∀ spent',
            sub ∈ miningLoopGo cap stop rest (i + 1) spent' →
            i ≤ sub.1 ∧ sub.2.1 + sub.2.2 ≤ cap ∧
              ∃ o, ((est, out) :: rest).get? (sub.1 - i) =
                some (sub.2.2, o) := by
          intro spent' hmem'
          obtain ⟨hle, hcap, o, hget⟩ := ih (i + 1) spent' sub hmem'
          refine ⟨by omega, hcap, o, ?_⟩
          have hidx : sub.1 - i = (sub.1 - (i + 1)) + 1 := by omega
          rw [hidx]
          simpa using hget
        cases out with
        | ok e f =>
          dsimp only at h
          rcases List.mem_cons.mp h with heq | hmem
          · exact base heq
          · split at hmem
            · simp at hmem
            · exact step _ hmem
        | nullResult =>
          dsimp only at h
          rcases List.mem_cons.mp h with heq | hmem
          · exact base heq
          · simp at hmem
        | exn =>
          dsimp only at h
          rcases List.mem_cons.mp h with heq | hmem
          · exact base heq
          · split at hmem
            · simp at hmem
            · exact step _ hmem
    · simp at h

/-- C2: in every run of the mining session loop, a transaction is
submitted only when `totalSpent + estimatedCost ≤ spendCap`, and the
estimate guarding a submission is the one freshly computed in that same
iteration (the oracle entry at the submission's own iteration index),
never one reused from an earlier iteration. -/
theorem c2_miningLoop_budget (cap : ℕ) (stop : Bool)
    (steps : List (ℕ × TxOutcome)) (sub : ℕ × ℕ × ℕ)
    (h : sub ∈ miningLoop cap stop steps) :
    sub.2.1 + sub.2.2 ≤ cap ∧
      ∃ out, steps.get? sub.1 = some (sub.2.2, out) := by
  have hspec := miningLoopGo_spec cap stop steps 0 0 sub h
  exact ⟨hspec.2.1, by simpa using hspec.2.2⟩

/-- C2 witness: budget 100 wei and two iterations estimating 40 wei each;
the second submission `(1, 40, 40)` respects the budget and uses the
second iteration's estimate. -/
theorem c2_witness :
    (1, 40, 40) ∈
      miningLoop 100 true [(40, .ok 40 7), (40, .ok 40 7)] ∧
    (40 + 40 ≤ 100 ∧
      ∃ out, [((40 : ℕ), TxOutcome.ok 40 7), (40, .ok 40 7)].get? 1 =
        some (40, out)) :=
  ⟨by decide,
    c2_miningLoop_budget 100 true [(40, .ok 40 7), (40, .ok 40 7)]
      (1, 40, 40) (by decide)⟩

/-- C6 counterexample: with the stop-on-failure flag **unset**, a
transaction that fails via a `null` result still terminates the session
loop.  Budget 100 wei, first iteration estimates 10 wei and fails with a
`null` result; the claim predicts a second submission `(1, 0, 10)`, but
the loop stops after the single first submission. -/
theorem c6_counterexample :
    miningLoop 100 false [(10, .nullResult), (10, .ok 10 0)] = [(0, 0, 10)] ∧
    (1, 0, 10) ∉ miningLoop 100 false [(10, .nullResult), (10, .ok 10 0)] := by
  decide

/-- C6 (amended): when a transaction fails by **throwing**, the
stop-on-failure flag alone decides between stopping and continuing; when
it fails via a `null` result, the loop stops regardless of the flag. -/
theorem c6_fail_policy (cap est i spent : ℕ) (rest : List (ℕ × TxOutcome))
    (stop : Bool) (h1 : spent < cap) (h2 : spent + est ≤ cap) :
    miningLoopGo cap stop ((est, .nullResult) :: rest) i spent =
      [(i, spent, est)] ∧
    miningLoopGo cap true ((est, .exn) :: rest) i spent =
      [(i, spent, est)] ∧
    miningLoopGo cap false ((est, .exn) :: rest) i spent =
      (i, spent, est) :: miningLoopGo cap false rest (i + 1) spent := by
  refine ⟨?_, ?_, ?_⟩ <;> simp [miningLoopGo, h1, Nat.not_lt.mpr h2]

/-- C6 witness: budget 100 wei, estimate 10 wei, no spend yet — the three
behaviours of the amended claim at a concrete state. -/
theorem c6_witness :
    (0 : ℕ) < 100 ∧ 0 + 10 ≤ 100 ∧
    (miningLoopGo 100 false [((10 : ℕ), .nullResult)] 0 0 = [(0, 0, 10)] ∧
     miningLoopGo 100 true [((10 : ℕ), .exn)] 0 0 = [(0, 0, 10)] ∧
     miningLoopGo 100 false [((10 : ℕ), .exn)] 0 0 =
       (0, 0, 10) :: miningLoopGo 100 false [] 1 0) :=
  ⟨by decide, by decide,
    c6_fail_policy 100 10 0 0 [] false (by decide) (by decide)⟩

/-- Rounding to six decimals is monotone. -/
theorem round6_mono {x y : ℚ} (h : x ≤ y) : round6 x ≤ round6 y := by
  rw [round6, round6]
  have h2 : ⌊x * 1000000 + 1 / 2⌋ ≤ ⌊y * 1000000 + 1 / 2⌋ :=
    Int.floor_le_floor (by linarith)
  have h3 : ((⌊x * 1000000 + 1 / 2⌋ : ℤ) : ℚ) ≤ ⌊y * 1000000 + 1 / 2⌋ := by
    exact_mod_cast h2
  linarith

/-- Values with at most six decimal places are fixed by `round6`. -/
theorem round6_int_div (k : ℤ) : round6 ((k : ℚ) / 1000000) = (k : ℚ) / 1000000 := by
  rw [round6]
  have h1 : (k : ℚ) / 1000000 * 1000000 + 1 / 2 = 1 / 2 + (k : ℚ) := by ring
  rw [h1]
  rw [show ((1 : ℚ) / 2 + (k : ℚ)) = 1 / 2 + ((k : ℤ) : ℚ) by norm_num,
    Int.floor_add_int]
  norm_num

/-- Rounding twice to six decimals equals rounding once. -/
theorem round6_round6 (x : ℚ) : round6 (round6 x) = round6 x := by
  rw [show round6 x = ((⌊x * 1000000 + 1 / 2⌋ : ℤ) : ℚ) / 1000000 from rfl]
  exact round6_int_div _

/-- Non-negativity is preserved by `round6`. -/
theorem round6_nonneg {x : ℚ} (h : 0 ≤ x) : 0 ≤ round6 x := by
  have h0 : round6 0 = 0 := by rw [round6]; norm_num
  calc (0 : ℚ) = round6 0 := h0.symm
    _ ≤ round6 x := round6_mono h

/-- A value already rounded to six decimals is below the rounding of
anything above it. -/
theorem self_le_round6 {x y : ℚ} (hx : round6 x = x) (h : x ≤ y) :
    x ≤ round6 y := by
  calc x = round6 x := hx.symm
    _ ≤ round6 y := round6_mono h

/-- One fee escalation is non-decreasing in the tip, in the effective max
fee, and preserves non-negativity and six-decimal alignment of both
components. -/
theorem bumpFees_mono (bump : ℚ) (hb : 1 ≤ bump) (s : FeeState)
    (ht0 : 0 ≤ s.tip) (hm0 : 0 ≤ s.maxFee)
    (ht6 : round6 s.tip = s.tip) (hm6 : round6 s.maxFee = s.maxFee) :
    s.tip ≤ (bumpFees bump s).tip ∧
    max s.maxFee s.tip ≤ max (bumpFees bump s).maxFee (bumpFees bump s).tip ∧
    0 ≤ (bumpFees bump s).tip ∧ 0 ≤ (bumpFees bump s).maxFee ∧
    round6 (bumpFees bump s).tip = (bumpFees bump s).tip ∧
    round6 (bumpFees bump s).maxFee = (bumpFees bump s).maxFee := by
  have hb0 : (0 : ℚ) ≤ bump := le_trans zero_le_one hb
  have htip : (bumpFees bump s).tip = round6 (s.tip * bump) := rfl
  have htipLe : s.tip ≤ (bumpFees bump s).tip := by
    rw [htip]
    exact self_le_round6 ht6 (le_mul_of_one_le_right ht0 hb)
  have htip0 : 0 ≤ (bumpFees bump s).tip := le_trans ht0 htipLe
  have htip6 : round6 (bumpFees bump s).tip = (bumpFees bump s).tip := by
    rw [htip]; exact round6_round6 _
  have hmax : (bumpFees bump s).maxFee =
      round6 (max s.maxFee (bumpFees bump s).tip * bump) := rfl
  have hmax6' : round6 (max s.maxFee (bumpFees bump s).tip) =
      max s.maxFee (bumpFees bump s).tip := by
    rcases max_choice s.maxFee (bumpFees bump s).tip with h | h <;> rw [h]
    · exact hm6
    · exact htip6
  have hmaxLe : max s.maxFee (bumpFees bump s).tip ≤ (bumpFees bump s).maxFee := by
    rw [hmax]
    exact self_le_round6 hmax6'
      (le_mul_of_one_le_right (le_trans hm0 (le_max_left _ _)) hb)
  have hmLe : s.maxFee ≤ (bumpFees bump s).maxFee :=
    le_trans (le_max_left _ _) hmaxLe
  refine ⟨htipLe, ?_, htip0, le_trans (le_trans hm0 (le_max_left _ _)) hmaxLe,
    htip6, by rw [hmax]; exact round6_round6 _⟩
  exact max_le_max hmLe htipLe

/-- C7: any error thrown during an attempt of `cancelNonce` is classified
into exactly three buckets by substring matching on the lower-cased
message, with the claimed actions: a message containing `nonce too low`
or `already known` terminates the nonce with no further attempts; else a
message containing `underpriced`, `tip too low` or `base fee` bumps both
the priority fee and the max fee by the multiplier and retries; any other
message terminates the nonce as a logged failure with no further
attempts. -/
theorem c7_cancel_error_classification (bump : ℚ)
    (oracle : ℕ → AttemptOutcome) (fuel i : ℕ) (s : FeeState) (msg : String)
    (h : oracle i = .err msg) :
    ((containsSub (lowerStr msg) patNonceTooLow
        || containsSub (lowerStr msg) patAlreadyKnown) = true →
      cancelNonceGo bump oracle (fuel + 1) i s =
        ([(i, s)], s, .alreadyResolved)) ∧
    ((containsSub (lowerStr msg) patNonceTooLow
        || containsSub (lowerStr msg) patAlreadyKnown) = false →
     (containsSub (lowerStr msg) patUnderpriced
        || containsSub (lowerStr msg) patTipTooLow
        || containsSub (lowerStr msg) patBaseFee) = true →
      cancelNonceGo bump oracle (fuel + 1) i s =
        ((i, s) ::
            (cancelNonceGo bump oracle fuel (i + 1) (bumpFees bump s)).1,
          (cancelNonceGo bump oracle fuel (i + 1) (bumpFees bump s)).2)) ∧
    ((containsSub (lowerStr msg) patNonceTooLow
        || containsSub (lowerStr msg) patAlreadyKnown) = false →
     (containsSub (lowerStr msg) patUnderpriced
        || containsSub (lowerStr msg) patTipTooLow
        || containsSub (lowerStr msg) patBaseFee) = false →
      cancelNonceGo bump oracle (fuel + 1) i s =
        ([(i, s)], s, .failedOther)) := by
  refine ⟨?_, ?_, ?_⟩
  · intro hA
    have hcl : classify msg = .resolved := by simp [classify, hA]
    simp [cancelNonceGo, h, hcl]
  · intro hA hB
    have hcl : classify msg = .bumpRetry := by simp [classify, hA, hB]
    simp [cancelNonceGo, h, hcl]
  · intro hA hB
    have hcl : classify msg = .failedOther := by simp [classify, hA, hB]
    simp [cancelNonceGo, h, hcl]

/-- C7 witness: an `underpriced` error on the first attempt bumps both
fees and retries; the unused buckets of the classification are
instantiated at the same message. -/
theorem c7_witness :
    ((fun n => if n = 1
        then AttemptOutcome.err msgReplacementUnderpriced
        else AttemptOutcome.ok) 1 =
      AttemptOutcome.err msgReplacementUnderpriced) ∧
    cancelNonceGo (5 / 4)
        (fun n => if n = 1
          then AttemptOutcome.err msgReplacementUnderpriced
          else AttemptOutcome.ok) 8 1 ⟨30, 60⟩ =
      ((1, (⟨30, 60⟩ : FeeState)) ::
          (cancelNonceGo (5 / 4)
            (fun n => if n = 1
              then AttemptOutcome.err msgReplacementUnderpriced
              else AttemptOutcome.ok) 7 2 (bumpFees (5 / 4) ⟨30, 60⟩)).1,
        (cancelNonceGo (5 / 4)
          (fun n => if n = 1
            then AttemptOutcome.err msgReplacementUnderpriced
            else AttemptOutcome.ok) 7 2 (bumpFees (5 / 4) ⟨30, 60⟩)).2) :=
  ⟨rfl,
    (c7_cancel_error_classification (5 / 4) _ 7 1 ⟨30, 60⟩
        msgReplacementUnderpriced rfl).2.1
      (by decide) (by decide)⟩

/-- With fuel remaining, the first recorded attempt of `cancelNonceGo`
is the current attempt with the current fee state. -/
theorem cancelNonceGo_head (bump : ℚ) (oracle : ℕ → AttemptOutcome)
    (fuel i : ℕ) (s : FeeState) (h : 0 < fuel) :
    ((cancelNonceGo bump oracle fuel i s).1).head? = some (i, s) := by
  cases fuel with
  | zero => omega
  | succ fuel =>
    cases h' : oracle i with
    | ok => simp [cancelNonceGo, h']
    | err msg => cases hc : classify msg <;> simp [cancelNonceGo, h', hc]

/-- Helper for C8: starting from non-negative six-decimal fees, the fee
pairs recorded along the attempts of one nonce form a non-decreasing
chain (both the tip and the effective max fee). -/
theorem cancelNonceGo_chain (bump : ℚ) (hb : 1 ≤ bump)
    (oracle : ℕ → AttemptOutcome) :
    ∀ (fuel i : ℕ) (s : FeeState), 0 ≤ s.tip → 0 ≤ s.maxFee →
      round6 s.tip = s.tip → round6 s.maxFee = s.maxFee →
      List.Chain'
        (fun a b : ℕ × FeeState =>
          (feesUsed a.2).1 ≤ (feesUsed b.2).1 ∧
          (feesUsed a.2).2 ≤ (feesUsed b.2).2)
        (cancelNonceGo bump oracle fuel i s).1 := by
  intro fuel
  induction fuel with
  | zero => intro i s _ _ _ _; simp [cancelNonceGo]
  | succ fuel ih =>
    intro i s ht0 hm0 ht6 hm6
    cases h' : oracle i with
    | ok => simp [cancelNonceGo, h']
    | err msg =>
      cases hc : classify msg with
      | resolved => simp [cancelNonceGo, h', hc]
      | failedOther => simp [cancelNonceGo, h', hc]
      | bumpRetry =>
        have hbm := bumpFees_mono bump hb s ht0 hm0 ht6 hm6
        have hchain := ih (i + 1) (bumpFees bump s) hbm.2.2.1 hbm.2.2.2.1
          hbm.2.2.2.2.1 hbm.2.2.2.2.2
        simp only [cancelNonceGo, h', hc]
        refine List.chain'_cons'.mpr ⟨?_, hchain⟩
        intro b hbmem
        rcases Nat.eq_zero_or_pos fuel with hf | hf
        · subst hf; simp [cancelNonceGo] at hbmem
        · rw [cancelNonceGo_head bump oracle fuel (i + 1) (bumpFees bump s) hf]
            at hbmem
          cases hbmem
          exact ⟨hbm.1, hbm.2.1⟩

/-- One unfolding of the retry loop on a `bumpRetry`-classified error:
the attempt is recorded and the loop continues with bumped fees. -/
theorem cancelNonceGo_bump_step (bump : ℚ) (oracle : ℕ → AttemptOutcome)
    (fuel i : ℕ) (s : FeeState) (msg : String)
    (h : oracle i = .err msg) (hc : classify msg = .bumpRetry) :
    cancelNonceGo bump oracle (fuel + 1) i s =
      ((i, s) :: (cancelNonceGo bump oracle fuel (i + 1) (bumpFees bump s)).1,
        (cancelNonceGo bump oracle fuel (i + 1) (bumpFees bump s)).2) := by
  simp [cancelNonceGo, h, hc]

/-- After two consecutive `bumpRetry` errors, the third recorded attempt
carries the twice-bumped fee state. -/
theorem cancelNonceGo_third (bump : ℚ) (oracle : ℕ → AttemptOutcome)
    (fuel i : ℕ) (s : FeeState) (m1 m2 : String)
    (h1 : oracle i = .err m1) (hc1 : classify m1 = .bumpRetry)
    (h2 : oracle (i + 1) = .err m2) (hc2 : classify m2 = .bumpRetry)
    (hf : 0 < fuel) :
    (cancelNonceGo bump oracle (fuel + 2) i s).1.get? 2 =
      some (i + 2, bumpFees bump (bumpFees bump s)) := by
  rw [show fuel + 2 = (fuel + 1) + 1 from rfl,
    cancelNonceGo_bump_step bump oracle (fuel + 1) i s m1 h1 hc1]
  show ((i, s) ::
      (cancelNonceGo bump oracle (fuel + 1) (i + 1) (bumpFees bump s)).1).get? 2 = _
  rw [cancelNonceGo_bump_step bump oracle fuel (i + 1) (bumpFees bump s) m2 h2 hc2]
  show (cancelNonceGo bump oracle fuel (i + 1 + 1)
      (bumpFees bump (bumpFees bump s))).1.get? 0 = _
  have hhead := cancelNonceGo_head bump oracle fuel (i + 1 + 1)
    (bumpFees bump (bumpFees bump s)) hf
  rcases hres : (cancelNonceGo bump oracle fuel (i + 1 + 1)
      (bumpFees bump (bumpFees bump s))).1 with _ | ⟨a, tl⟩
  · rw [hres] at hhead; simp at hhead
  · rw [hres] at hhead
    simp at hhead
    simp [hhead]

/-- C8 (amended): for a multiplier above 1 and initial fees that are
non-negative six-decimal gwei values, the fee pair used on attempt `k+1`
dominates the pair used on attempt `k` (the fee ladder is non-decreasing
across attempts); and after exactly two `underpriced` classifications the
tip used on the third attempt is `round6 (round6 (initialTip * m) * m)` —
the multiplier applied twice with a six-decimal rounding after each step
(this equals `initialTip * m²` only when no rounding occurs). -/
theorem c8_fee_ladder (bump : ℚ) (hb : 1 < bump)
    (oracle : ℕ → AttemptOutcome) (s : FeeState)
    (ht0 : 0 ≤ s.tip) (hm0 : 0 ≤ s.maxFee)
    (ht6 : round6 s.tip = s.tip) (hm6 : round6 s.maxFee = s.maxFee) :
    List.Chain'
      (fun a b : ℕ × FeeState =>
        (feesUsed a.2).1 ≤ (feesUsed b.2).1 ∧
        (feesUsed a.2).2 ≤ (feesUsed b.2).2)
      (cancelNonce bump oracle s).1 ∧
    (∀ m1 m2, oracle 1 = .err m1 → oracle 2 = .err m2 →
      classify m1 = .bumpRetry → classify m2 = .bumpRetry →
      (cancelNonce bump oracle s).1.get? 2 =
        some (3, bumpFees bump (bumpFees bump s)) ∧
      (bumpFees bump (bumpFees bump s)).tip =
        round6 (round6 (s.tip * bump) * bump)) := by
  constructor
  · exact cancelNonceGo_chain bump (le_of_lt hb) oracle 8 1 s ht0 hm0 ht6 hm6
  · intro m1 m2 h1 h2 hc1 hc2
    refine ⟨?_, rfl⟩
    show (cancelNonceGo bump oracle 8 1 s).1.get? 2 = _
    rw [show (8 : ℕ) = 6 + 2 from rfl]
    exact cancelNonceGo_third bump oracle 6 1 s m1 m2 h1 hc1 h2 hc2 (by omega)

/-- C8 counterexample: the claim predicts that after two `underpriced`
errors the third attempt uses `initialTip * multiplier²` exactly.  With
`initialTip = 1` gwei and `multiplier = 1.0000001`, both escalations are
erased by the `toFixed(6)` rounding: the third attempt's tip is `1`,
while `1 * 1.0000001² ≠ 1`. -/
theorem c8_counterexample :
    ((cancelNonce ((10000001 : ℚ) / 10000000)
        (fun n => if n = 1 then AttemptOutcome.err patUnderpriced
          else if n = 2 then AttemptOutcome.err patUnderpriced
          else AttemptOutcome.ok) ⟨1, 2⟩).1.get? 2) =
      some (3, (⟨1, 2⟩ : FeeState)) ∧
    (1 : ℚ) ≠ 1 * ((10000001 : ℚ) / 10000000) ^ 2 ∧
    (1 : ℚ) < (10000001 : ℚ) / 10000000 := by
  have hstate : bumpFees ((10000001 : ℚ) / 10000000) ⟨1, 2⟩ = ⟨1, 2⟩ := by
    have h1 : round6 ((1 : ℚ) * (10000001 / 10000000)) = 1 := by
      rw [round6]; norm_num
    have h2 : round6 (max (2 : ℚ) 1 * (10000001 / 10000000)) = 2 := by
      rw [show max (2 : ℚ) 1 = 2 from by norm_num, round6]; norm_num
    rw [show bumpFees ((10000001 : ℚ) / 10000000) ⟨1, 2⟩ =
        ⟨round6 ((1 : ℚ) * (10000001 / 10000000)),
          round6 (max (2 : ℚ) (round6 ((1 : ℚ) * (10000001 / 10000000))) *
            (10000001 / 10000000))⟩ from rfl, h1, h2]
  refine ⟨?_, by norm_num, by norm_num⟩
  have hcl : classify patUnderpriced = .bumpRetry := by decide
  show (cancelNonceGo _ _ 8 1 _).1.get? 2 = _
  rw [show (8 : ℕ) = 6 + 2 from rfl]
  rw [cancelNonceGo_third ((10000001 : ℚ) / 10000000) _ 6 1 ⟨1, 2⟩
    patUnderpriced patUnderpriced rfl hcl rfl hcl (by omega)]
  rw [hstate, hstate]

/-- C8 witness: multiplier `1.25`, initial tip 30 and max 60 gwei, two
`underpriced` errors then success — the fee ladder of the run is a
non-decreasing chain and the third attempt is reached with the
twice-escalated fee state. -/
theorem c8_witness :
    (1 : ℚ) < 5 / 4 ∧ (0 : ℚ) ≤ 30 ∧ (0 : ℚ) ≤ 60 ∧
    round6 (30 : ℚ) = 30 ∧ round6 (60 : ℚ) = 60 ∧
    (List.Chain'
      (fun a b : ℕ × FeeState =>
        (feesUsed a.2).1 ≤ (feesUsed b.2).1 ∧
        (feesUsed a.2).2 ≤ (feesUsed b.2).2)
      (cancelNonce (5 / 4)
        (fun n => if n = 1 then AttemptOutcome.err patUnderpriced
          else if n = 2 then AttemptOutcome.err patUnderpriced
          else AttemptOutcome.ok) ⟨30, 60⟩).1 ∧
    (∀ m1 m2,
      (fun n => if n = 1 then AttemptOutcome.err patUnderpriced
        else if n = 2 then AttemptOutcome.err patUnderpriced
        else AttemptOutcome.ok) 1 = .err m1 →
      (fun n => if n = 1 then AttemptOutcome.err patUnderpriced
        else if n = 2 then AttemptOutcome.err patUnderpriced
        else AttemptOutcome.ok) 2 = .err m2 →
      classify m1 = .bumpRetry → classify m2 = .bumpRetry →
      (cancelNonce (5 / 4)
        (fun n => if n = 1 then AttemptOutcome.err patUnderpriced
          else if n = 2 then AttemptOutcome.err patUnderpriced
          else AttemptOutcome.ok) ⟨30, 60⟩).1.get? 2 =
        some (3, bumpFees (5 / 4) (bumpFees (5 / 4) ⟨30, 60⟩)) ∧
      (bumpFees (5 / 4) (bumpFees (5 / 4) (⟨30, 60⟩ : FeeState))).tip =
        round6 (round6 ((⟨30, 60⟩ : FeeState).tip * (5 / 4)) * (5 / 4)))) :=
  ⟨by norm_num, by norm_num, by norm_num,
    by rw [round6]; norm_num, by rw [round6]; norm_num,
    c8_fee_ladder (5 / 4) (by norm_num) _ ⟨30, 60⟩ (by norm_num) (by norm_num)
      (by rw [round6]; norm_num) (by rw [round6]; norm_num)⟩

/-- The first per-nonce record of a sweep starts with the incoming fee
state. -/
theorem runRange_first (bump : ℚ) (s : FeeState)
    (os : List (ℕ → AttemptOutcome)) (q : FeeState × FeeState)
    (h : (runRange bump s os).get? 0 = some q) : q.1 = s := by
  cases os with
  | nil => simp [runRange] at h
  | cons o rest =>
    simp only [runRange, List.get?_cons_zero, Option.some.injEq] at h
    subst h
    rfl

/-- C10: the canceller's `TIP`/`MAX` pair is a single process-wide state
threaded through the whole sweep: the fee state at the start of nonce
`i+1` equals the fee state left behind by nonce `i`, so escalations
performed for one nonce carry over to every later nonce. -/
theorem c10_fee_threading (bump : ℚ) (s : FeeState)
    (oracles : List (ℕ → AttemptOutcome)) :
    ∀ i p q, (runRange bump s oracles).get? i = some p →
      (runRange bump s oracles).get? (i + 1) = some q → q.1 = p.2 := by
  induction oracles generalizing s with
  | nil => intro i p q hp _; simp [runRange] at hp
  | cons o rest ih =>
    intro i p q hp hq
    cases i with
    | zero =>
      simp only [runRange, List.get?_cons_zero, Option.some.injEq] at hp
      simp only [runRange, List.get?_cons_succ] at hq
      subst hp
      exact runRange_first bump _ rest q hq
    | succ n =>
      simp only [runRange, List.get?_cons_succ] at hp hq
      exact ih _ n p q hp hq

/-- C10 witness: a two-nonce sweep; the second nonce starts with exactly
the fee state the first nonce ended with. -/
theorem c10_witness :
    (runRange 2 ⟨1, 2⟩
        [fun _ => AttemptOutcome.ok, fun _ => AttemptOutcome.ok]).get? 0 =
      some ((⟨1, 2⟩ : FeeState), (⟨1, 2⟩ : FeeState)) ∧
    (runRange 2 ⟨1, 2⟩
        [fun _ => AttemptOutcome.ok, fun _ => AttemptOutcome.ok]).get? 1 =
      some ((⟨1, 2⟩ : FeeState), (⟨1, 2⟩ : FeeState)) ∧
    ((⟨1, 2⟩ : FeeState), (⟨1, 2⟩ : FeeState)).1 =
      ((⟨1, 2⟩ : FeeState), (⟨1, 2⟩ : FeeState)).2 :=
  ⟨by decide, by decide,
    c10_fee_threading 2 ⟨1, 2⟩
      [fun _ => AttemptOutcome.ok, fun _ => AttemptOutcome.ok] 0 _ _
      (by decide) (by decide)⟩

/-- Helper for C9: the efficiency formula in terms of the input-gas
cost of the mine-boost bytes. -/
theorem efficiencyPercentOf_eq (g : ℕ → ℕ) (s : ℕ) :
    efficiencyPercentOf g s =
      (g (s - 160) : ℚ) / ((g (s - 160) : ℚ) + 21000) * 100 := by
  unfold efficiencyPercentOf estimatedInputCostGas
  rw [Nat.add_sub_cancel]
  push_cast
  ring_nf

/-- C9: for every payload size above the 160-byte overhead, the
efficiency `(estimatedGas - 21000) / estimatedGas * 100` lies in
`[0, 100)`, and it is strictly increasing in the payload size, provided
the SDK's input-gas cost (an external oracle, spec S6) is strictly
monotone in the byte count — as it is for the all-non-zero mine-boost
payloads the miner builds. -/
theorem c9_efficiency (g : ℕ → ℕ) (hg : StrictMono g) :
    (∀ s, 160 < s →
      0 ≤ efficiencyPercentOf g s ∧ efficiencyPercentOf g s < 100) ∧
    (∀ s₁ s₂, 160 < s₁ → s₁ < s₂ →
      efficiencyPercentOf g s₁ < efficiencyPercentOf g s₂) := by
  constructor
  · intro s _
    rw [efficiencyPercentOf_eq]
    have hc : (0 : ℚ) ≤ (g (s - 160) : ℚ) := Nat.cast_nonneg _
    constructor
    · positivity
    · have hlt : (g (s - 160) : ℚ) / ((g (s - 160) : ℚ) + 21000) < 1 :=
        (div_lt_one (by positivity)).mpr (by linarith)
      linarith
  · intro s₁ s₂ h1 h12
    rw [efficiencyPercentOf_eq, efficiencyPercentOf_eq]
    have hmono : g (s₁ - 160) < g (s₂ - 160) := hg (by omega)
    have hc1 : (0 : ℚ) ≤ (g (s₁ - 160) : ℚ) := Nat.cast_nonneg _
    have hcast : (g (s₁ - 160) : ℚ) < (g (s₂ - 160) : ℚ) := by
      exact_mod_cast hmono
    have hc2 : (0 : ℚ) ≤ (g (s₂ - 160) : ℚ) := Nat.cast_nonneg _
    have hdiv : (g (s₁ - 160) : ℚ) / ((g (s₁ - 160) : ℚ) + 21000) <
        (g (s₂ - 160) : ℚ) / ((g (s₂ - 160) : ℚ) + 21000) := by
      rw [div_lt_div_iff₀ (by linarith) (by linarith)]
      nlinarith
    have := mul_lt_mul_of_pos_right hdiv (by norm_num : (0 : ℚ) < 100)
    linarith

/-- C9 witness: with the repository's own 40-gas-per-non-zero-byte data
cost, a 25KB payload has efficiency in `[0, 100)` and is strictly less
efficient than a 50KB payload. -/
theorem c9_witness :
    (0 ≤ efficiencyPercentOf (fun n => 40 * n) 25600 ∧
      efficiencyPercentOf (fun n => 40 * n) 25600 < 100) ∧
    efficiencyPercentOf (fun n => 40 * n) 25600 <
      efficiencyPercentOf (fun n => 40 * n) 51200 := by
  have hg : StrictMono (fun n : ℕ => 40 * n) := by
    intro a b h
    dsimp only
    omega
  exact ⟨(c9_efficiency _ hg).1 25600 (by norm_num),
    (c9_efficiency _ hg).2 25600 51200 (by norm_num) (by norm_num)⟩

end FctMiner
